import Mathlib

/-!
# Verification of the update-detection engine of `cargo-bup`

A shallow embedding, in Lean 4, of the source-identity and update-detection
core of the `cargo-bup` tool: the `PackageId`/`SourceId` model and its textual
decoding (`src/cargo.rs`), URL canonicalization (`CanonicalUrl::new`), the
cache-directory derivation used by the Git detector (`src/git.rs`,
`get_git_repo_path`), the Git detector state machine (`check_update`,
`git_changes` in `src/git.rs`), the registry detector (`src/registry.rs`,
`check_update`) and the update collector of the `git2`-based variant
(`collect_updates`, `git_changes` in `src/main.rs`).

External library behaviour that the code leans on is modelled explicitly:

* the `url` crate's parsed URLs are modelled by the structure `Url` below
  (scheme, lower-cased host, path segments, query, fragment, and the
  cannot-be-a-base flag); percent-encoding, user-info and ports are not
  modelled since no input the tool handles exercises them;
* the `semver` crate's `Version` type, its parser and its `Ord` instance
  (which orders pre-release below release and, unlike pure SemVer
  precedence, compares build metadata as a final tie-break) are embedded
  in full;
* the `siphasher` crate's `SipHasher24` (SipHash-2-4 with zero keys) is
  implemented over `Nat` with explicit reduction modulo `2 ^ 64`, fed
  through Rust's `Hash` protocol for `CanonicalUrl` (the `url` crate hashes
  a URL by hashing its serialization `String`, and `str` hashing writes the
  UTF-8 bytes followed by a `0xff` terminator byte);
* the `gix`/`git2` repository object model is reduced to a commit graph
  (`Repo`) plus oracles (`GitWorld`, `MainWorld`) for the effectful
  operations (open/init, remote configuration, fetch, ref resolution, tree
  diffs); the commit-graph walks themselves (`ancestors`, `reachable`) are
  executed on the graph.
-/

set_option maxRecDepth 4000

deriving instance DecidableEq for Except

/-! ## String helpers

All string manipulation is done on `String.data` (lists of characters) so
that facts about it can be proved by ordinary list induction.  `strDropRight`
mirrors Rust's byte slicing `&s[..s.len() - n]` for the ASCII suffixes that
the code chops (`".git"`), and `lowerStr` mirrors `str::to_lowercase`
restricted to the basic latin range (the only range GitHub repository paths
use). -/

/-- Split a character list at the first occurrence of `c`, mirroring Rust's
`str::split_once`. -/
def splitOnceChar (c : Char) : List Char → Option (List Char × List Char)
  | [] => none
  | x :: xs =>
    if x = c then some ([], xs)
    else match splitOnceChar c xs with
      | none => none
      | some (a, b) => some (x :: a, b)

/-- `str::split_once` on strings. -/
def splitOnce (s : String) (c : Char) : Option (String × String) :=
  match splitOnceChar c s.data with
  | none => none
  | some (a, b) => some (⟨a⟩, ⟨b⟩)

/-- Split a character list at every occurrence of `c` (Rust's `str::split`):
always at least one (possibly empty) piece. -/
def splitAllChar (c : Char) : List Char → List (List Char)
  | [] => [[]]
  | x :: xs =>
    if x = c then [] :: splitAllChar c xs
    else match splitAllChar c xs with
      | [] => [[x]]
      | p :: ps => (x :: p) :: ps

/-- `str::split` on strings. -/
def splitAll (s : String) (c : Char) : List String :=
  (splitAllChar c s.data).map (fun l => (⟨l⟩ : String))

/-- Does `s` end with `suffix`?  (Rust `str::ends_with`.) -/
def strEndsWith (s suffix : String) : Bool :=
  suffix.data.isSuffixOf s.data

/-- Does `s` start with `prefixStr`?  (Rust `str::starts_with`.) -/
def strStartsWith (s prefixStr : String) : Bool :=
  prefixStr.data.isPrefixOf s.data

/-- Drop the last `n` characters (Rust `&s[..s.len() - n]` for an ASCII
suffix of length `n`). -/
def strDropRight (s : String) (n : Nat) : String :=
  ⟨s.data.take (s.data.length - n)⟩

/-- Drop the first `n` characters (Rust `&s[n..]` for an ASCII prefix). -/
def strDropLeft (s : String) (n : Nat) : String :=
  ⟨s.data.drop n⟩

/-- Rust `str::trim` (the identifiers in the install-state file only carry
ASCII whitespace, which `Char.isWhitespace` covers). -/
def strTrim (s : String) : String :=
  ⟨((s.data.dropWhile Char.isWhitespace).reverse.dropWhile Char.isWhitespace).reverse⟩

/-- ASCII lower-casing of one character, as Lean's `Char.toLower` (the
fragment of Rust's `char::to_lowercase` exercised by repository paths). -/
def lowerStr (s : String) : String :=
  ⟨s.data.map Char.toLower⟩

theorem toNat_ofNat_of_valid (n : Nat) (h : n.isValidChar) :
    (Char.ofNat n).toNat = n := by
  unfold Char.ofNat
  rw [dif_pos h]
  rfl

theorem toLower_toLower (c : Char) : c.toLower.toLower = c.toLower := by
  unfold Char.toLower
  by_cases h : c.toNat ≥ 65 ∧ c.toNat ≤ 90
  · rw [if_pos h]
    have hv : (c.toNat + 32).isValidChar := Or.inl (by omega)
    rw [toNat_ofNat_of_valid _ hv, if_neg (by omega)]
  · rw [if_neg h, if_neg h]

theorem lowerStr_lowerStr (s : String) : lowerStr (lowerStr s) = lowerStr s := by
  unfold lowerStr
  rw [List.map_map]
  congr 1
  exact List.map_congr_left fun c _ => toLower_toLower c

/-! ## The URL model

`Url` models a parsed `url::Url`.  The `host` is stored lower-cased, as the
`url` crate lower-cases host names while parsing.  The `pathSegs` field holds
the `/`-separated path segments: a URL whose path is `/` has segments
`[""]`, and a URL with an entirely empty path (possible for non-special
schemes such as `sparse+https`) has no segments. -/

structure Url where
  scheme : String
  host : Option String
  pathSegs : List String
  query : Option String
  fragment : Option String
  cannotBeABase : Bool
deriving DecidableEq, Repr

/-- The serialized path: `/`-joined segments, each preceded by `/`. -/
def pathChars : List String → List Char
  | [] => []
  | s :: rest => '/' :: s.data ++ pathChars rest

/-- `Url::path` as a string. -/
def pathString (u : Url) : String :=
  ⟨pathChars u.pathSegs⟩

/-- `Url::to_string`/`Url::as_str`: the serialization of the URL. -/
def serializeUrl (u : Url) : String :=
  u.scheme ++ "://" ++ (u.host.getD "") ++ pathString u
    ++ (match u.query with | none => "" | some q => "?" ++ q)
    ++ (match u.fragment with | none => "" | some f => "#" ++ f)

/-- Schemes the `url` crate treats as special (their parsed path is never
empty: a missing path becomes `/`). -/
def specialScheme (s : String) : Bool :=
  s = "http" || s = "https" || s = "ws" || s = "wss" || s = "ftp" || s = "file"

/-- Is `c` a character allowed in a URL scheme after the first? -/
def isSchemeChar (c : Char) : Bool :=
  c.isAlphanum || c = '+' || c = '-' || c = '.'

/-- `url::Url::parse`, modelled for the hierarchical (`scheme://...`) and
opaque (`scheme:...`) shapes the tool encounters.  Hosts are lower-cased as
the `url` crate does; percent-encoding, user-info and ports are not
modelled. -/
def parseUrl (s : String) : Option Url :=
  match splitOnceChar ':' s.data with
  | none => none
  | some (schemeChars, rest) =>
    if schemeChars = [] then none
    else if ¬ (schemeChars.all isSchemeChar) then none
    else match schemeChars.head? with
      | none => none
      | some c0 =>
        if ¬ c0.isAlpha then none
        else
          let scheme : String := ⟨schemeChars⟩
          match rest with
          | '/' :: '/' :: rest2 =>
            let authority := rest2.takeWhile (fun c => c ≠ '/' && c ≠ '?' && c ≠ '#')
            let afterAuth := rest2.dropWhile (fun c => c ≠ '/' && c ≠ '?' && c ≠ '#')
            let host : Option String :=
              if authority = [] then none else some (lowerStr ⟨authority⟩)
            let pathPart := afterAuth.takeWhile (fun c => c ≠ '?' && c ≠ '#')
            let afterPath := afterAuth.dropWhile (fun c => c ≠ '?' && c ≠ '#')
            let segs : List String :=
              match pathPart with
              | '/' :: p => (splitAllChar '/' p).map (fun l => (⟨l⟩ : String))
              | _ => if specialScheme scheme then [""] else []
            let query : Option String :=
              match afterPath with
              | '?' :: q => some ⟨q.takeWhile (fun c => c ≠ '#')⟩
              | _ => none
            let fragment : Option String :=
              match afterPath.dropWhile (fun c => c ≠ '#') with
              | '#' :: f => some ⟨f⟩
              | _ => none
            some { scheme, host, pathSegs := segs, query, fragment, cannotBeABase := false }
          | _ =>
            -- `scheme:opaque` with no authority: cannot be used as a base.
            some { scheme, host := none, pathSegs := [], query := none,
                   fragment := none, cannotBeABase := true }

/-- `Url::query_pairs`, without percent-decoding: split the raw query on
`&`, then each pair at the first `=` (a pair without `=` has an empty
value). -/
def queryPairs (u : Url) : List (String × String) :=
  match u.query with
  | none => []
  | some q =>
    (splitAll q '&').map fun kv =>
      match splitOnce kv '=' with
      | none => (kv, "")
      | some (k, v) => (k, v)

/-! ## The canonicalizer (`CanonicalUrl::new`, `src/cargo.rs` lines 182-236)

The four sequential rewrites of `CanonicalUrl::new` are embedded as four
named steps applied in the source's order. -/

/-- `PathSegmentsMut::pop_if_empty`: drop the trailing segment if it is
empty. -/
def popIfEmpty (segs : List String) : List String :=
  match segs.getLast? with
  | some "" => segs.dropLast
  | _ => segs

/-- Chop `".git"` (4 bytes) off the final path segment
(`pop().push(&last[..last.len() - 4])`). -/
def chopGit (segs : List String) : List String :=
  match segs.getLast? with
  | none => segs
  | some last => segs.dropLast ++ [strDropRight last 4]

/-- Step 2 of `CanonicalUrl::new`: strip one trailing `/` from the path. -/
def stripSlashStep (u : Url) : Url :=
  if strEndsWith (pathString u) "/" then { u with pathSegs := popIfEmpty u.pathSegs }
  else u

/-- Step 3 of `CanonicalUrl::new`: for the `github.com` host, force the
scheme to `https` (string surgery on everything after the scheme) and
lower-case the whole path. -/
def githubStep (u : Url) : Url :=
  if u.host = some "github.com" then
    { u with scheme := "https", pathSegs := u.pathSegs.map lowerStr }
  else u

/-- Step 4 of `CanonicalUrl::new`: chop a trailing `.git` off the final path
segment. -/
def chopGitStep (u : Url) : Url :=
  if strEndsWith (pathString u) ".git" then { u with pathSegs := chopGit u.pathSegs }
  else u

/-- Step 5 of `CanonicalUrl::new`: strip a `sparse+` scheme prefix by
re-parsing the serialization without its first 7 bytes, which replaces the
scheme by everything after `sparse+` and leaves the rest untouched. -/
def sparseStep (u : Url) : Url :=
  if strStartsWith u.scheme "sparse+" then { u with scheme := strDropLeft u.scheme 7 }
  else u

/-- Errors of the engine, following the spec's taxonomy (§7). -/
inductive Err where
  | malformedIdentifier
  | unsupportedSource
  | unsupportedSourceKind
  | unsupportedUrlShape
  | invalidUrl
  | packageNotFound
  | invalidUpstreamVersion
  | invalidCommitId
  | notImplemented
  | repositoryAccess (msg : String)
deriving DecidableEq, Repr

/-- `CanonicalUrl::new` (`src/cargo.rs`): reject cannot-be-a-base URLs, then
apply the four rewrite steps in order. -/
def canonicalize (u : Url) : Except Err Url :=
  if u.cannotBeABase then .error .unsupportedUrlShape
  else .ok (sparseStep (chopGitStep (githubStep (stripSlashStep u))))

/-- The `CanonicalUrl` new-type (`pub struct CanonicalUrl(pub Url)`). -/
structure CanonicalUrl where
  inner : Url
deriving DecidableEq, Repr

/-- `CanonicalUrl::new` wrapped into the new-type. -/
def CanonicalUrl.new (u : Url) : Except Err CanonicalUrl :=
  (canonicalize u).map CanonicalUrl.mk

/-! ## SemVer (the `semver` crate)

`Version` stores the pre-release and build metadata as lists of already
`.`-separated identifiers, as produced by the parser below.  The ordering
embeds the crate's `Ord` instances: `Prerelease` orders the empty
pre-release above any non-empty one and identifiers per the SemVer rules;
`BuildMetadata` — an extension over the SemVer spec that the crate makes and
the code inherits through `latest > package.version` — orders the empty
build below any non-empty one and numeric identifiers by their value, then
by leading zeros. -/

structure Version where
  major : Nat
  minor : Nat
  patch : Nat
  pre : List String
  build : List String
deriving DecidableEq, Repr

/-- Byte-wise (here: character-wise, equal on ASCII) string comparison,
Rust's `Ord` for `str`. -/
def cmpChars : List Char → List Char → Ordering
  | [], [] => .eq
  | [], _ :: _ => .lt
  | _ :: _, [] => .gt
  | a :: as_, b :: bs =>
    if a.toNat < b.toNat then .lt
    else if b.toNat < a.toNat then .gt
    else cmpChars as_ bs

def cmpStr (a b : String) : Ordering := cmpChars a.data b.data

/-- Is every character of the identifier an ASCII digit
(`bytes().all(is_ascii_digit)`)? -/
def allDigits (s : String) : Bool := s.data.all Char.isDigit

/-- One pre-release identifier against another (`Ord for Prerelease`, per
identifier): numeric identifiers order below alphanumeric ones and among
themselves by length, then string order. -/
def cmpIdentPre (lhs rhs : String) : Ordering :=
  match allDigits lhs, allDigits rhs with
  | true, true => (compare lhs.data.length rhs.data.length).then (cmpStr lhs rhs)
  | true, false => .lt
  | false, true => .gt
  | false, false => cmpStr lhs rhs

/-- One build identifier against another (`Ord for BuildMetadata`, per
identifier): both numeric compares the zero-trimmed values by length then
string order, then the raw lengths (`0 < 00 < 1 < 01 < 001 < 2`). -/
def cmpIdentBuild (lhs rhs : String) : Ordering :=
  match allDigits lhs, allDigits rhs with
  | true, true =>
    let lhval := lhs.data.dropWhile (· = '0')
    let rhval := rhs.data.dropWhile (· = '0')
    ((compare lhval.length rhval.length).then (cmpChars lhval rhval)).then
      (compare lhs.data.length rhs.data.length)
  | true, false => .lt
  | false, true => .gt
  | false, false => cmpStr lhs rhs

/-- The identifier-list loop shared by both `Ord` impls: pairwise compare,
a list that runs out first is less. -/
def cmpIdentList (f : String → String → Ordering) : List String → List String → Ordering
  | [], [] => .eq
  | [], _ :: _ => .lt
  | _ :: _, [] => .gt
  | l :: ls, r :: rs =>
    match f l r with
    | .eq => cmpIdentList f ls rs
    | o => o

/-- `Ord for Prerelease`: empty (no pre-release) is greater than non-empty. -/
def cmpPre (a b : List String) : Ordering :=
  match a, b with
  | [], [] => .eq
  | [], _ :: _ => .gt
  | _ :: _, [] => .lt
  | _, _ => cmpIdentList cmpIdentPre a b

/-- `Ord for BuildMetadata`: empty is less than non-empty. -/
def cmpBuild (a b : List String) : Ordering :=
  match a, b with
  | [], [] => .eq
  | [], _ :: _ => .lt
  | _ :: _, [] => .gt
  | _, _ => cmpIdentList cmpIdentBuild a b

/-- `Ord for Version`: major, minor, patch, pre-release, then build
metadata. -/
def cmpVersion (a b : Version) : Ordering :=
  ((((compare a.major b.major).then (compare a.minor b.minor)).then
    (compare a.patch b.patch)).then (cmpPre a.pre b.pre)).then
    (cmpBuild a.build b.build)

/-- `a > b` on `semver::Version`. -/
def versionGt (a b : Version) : Bool := cmpVersion a b = .gt

/-- SemVer *precedence* comparison as the spec describes it: pre-release
below release, build metadata ignored.  Kept for comparison against the
crate ordering the code actually uses. -/
def cmpVersionSpecPrecedence (a b : Version) : Ordering :=
  (((compare a.major b.major).then (compare a.minor b.minor)).then
    (compare a.patch b.patch)).then (cmpPre a.pre b.pre)

/-! ### The `semver` parser (`Version::parse`) -/

/-- Parse a numeric field (major/minor/patch): one or more ASCII digits with
no leading zero (unless the field is exactly `0`). -/
def parseNumericField (cs : List Char) : Option (Nat × List Char) :=
  let ds := cs.takeWhile Char.isDigit
  let rest := cs.dropWhile Char.isDigit
  match ds with
  | [] => none
  | d :: ds2 =>
    if d = '0' ∧ ds2 ≠ [] then none
    else some ((d :: ds2).foldl (fun a c => a * 10 + (c.toNat - 48)) 0, rest)

/-- A character allowed in a pre-release or build identifier. -/
def isIdentChar (c : Char) : Bool := c.isAlphanum || c = '-'

/-- Parse one dot-separated identifier; for pre-release identifiers
(`allowLeadingZeros = false`) an all-numeric identifier must not have a
leading zero. -/
def parseIdent (allowLeadingZeros : Bool) (cs : List Char) :
    Option (String × List Char) :=
  let ds := cs.takeWhile isIdentChar
  let rest := cs.dropWhile isIdentChar
  match ds with
  | [] => none
  | d :: ds2 =>
    if ¬ allowLeadingZeros ∧ (d :: ds2).all Char.isDigit ∧ d = '0' ∧ ds2 ≠ [] then none
    else some (⟨d :: ds2⟩, rest)

/-- Parse a `.`-separated sequence of identifiers (pre-release or build
metadata), with fuel bounded by the input length. -/
def parseIdents (allowLeadingZeros : Bool) :
    Nat → List Char → Option (List String × List Char)
  | 0, _ => none
  | n + 1, cs =>
    match parseIdent allowLeadingZeros cs with
    | none => none
    | some (ident, rest) =>
      match rest with
      | '.' :: rest2 =>
        match parseIdents allowLeadingZeros n rest2 with
        | none => none
        | some (more, rest3) => some (ident :: more, rest3)
      | _ => some ([ident], rest)

/-- `semver::Version::parse`. -/
def parseVersion (s : String) : Option Version := do
  let (major, r1) ← parseNumericField s.data
  let r2 ← match r1 with | '.' :: r => some r | _ => none
  let (minor, r3) ← parseNumericField r2
  let r4 ← match r3 with | '.' :: r => some r | _ => none
  let (patch, r5) ← parseNumericField r4
  let (pre, r6) ←
    match r5 with
    | '-' :: r => parseIdents false r.length r
    | _ => some ([], r5)
  let (build, r7) ←
    match r6 with
    | '+' :: r => parseIdents true r.length r
    | _ => some ([], r6)
  if r7 = [] then some { major, minor, patch, pre, build } else none

/-! ## Source identifiers (`src/cargo.rs`) -/

/-- `GitReference`: how a Git source pins its code. -/
inductive GitReference where
  | Tag (name : String)
  | Branch (name : String)
  | Rev (rev : String)
  | DefaultBranch
deriving DecidableEq, Repr

/-- `SourceKind`. -/
inductive SourceKind where
  | Git (gitRef : GitReference)
  | Path
  | Registry
deriving DecidableEq, Repr

/-- `SourceId`. -/
structure SourceId where
  url : Url
  canonicalUrl : CanonicalUrl
  kind : SourceKind
  precise : Option String
  name : Option String
deriving DecidableEq, Repr

/-- `SourceId::new`: validate by canonicalizing the URL. -/
def SourceId.new (kind : SourceKind) (url : Url) (name : Option String) :
    Except Err SourceId :=
  (CanonicalUrl.new url).map fun cu =>
    { kind, canonicalUrl := cu, url, precise := none, name }

/-- `SourceId::with_precise`. -/
def SourceId.withPrecise (s : SourceId) (v : Option String) : SourceId :=
  { s with precise := v }

/-- Fold of `url.query_pairs()` updating the `GitReference`
(`branch`/`ref` → `Branch`, `rev` → `Rev`, `tag` → `Tag`, last wins). -/
def gitRefFromPairs (pairs : List (String × String)) : GitReference :=
  pairs.foldl
    (fun acc kv =>
      if kv.1 = "branch" ∨ kv.1 = "ref" then .Branch kv.2
      else if kv.1 = "rev" then .Rev kv.2
      else if kv.1 = "tag" then .Tag kv.2
      else acc)
    .DefaultBranch

/-- `SourceId::from_url` (`src/cargo.rs` lines 102-140): split at the first
`+` into a kind tag and a URL.  For `git` sources the reference is read from the
query pairs, the fragment becomes `precise`, and fragment and query are
stripped; `registry` and `sparse` sources are pinned with the `locked`
marker (for `sparse` the *whole* string, prefix included, is parsed as the
URL); `path` sources carry no pin; other tags are unsupported. -/
def sourceIdFromUrl (s : String) : Except Err SourceId :=
  match splitOnce s '+' with
  | none => .error .unsupportedSource
  | some (kind, url) =>
    if kind = "git" then
      match parseUrl url with
      | none => .error .invalidUrl
      | some u =>
        let reference := gitRefFromPairs (queryPairs u)
        let precise := u.fragment
        let u := { u with fragment := none, query := none }
        (SourceId.new (.Git reference) u none).map (·.withPrecise precise)
    else if kind = "registry" then
      match parseUrl url with
      | none => .error .invalidUrl
      | some u =>
        (SourceId.new .Registry u none).map (·.withPrecise (some "locked"))
    else if kind = "sparse" then
      match parseUrl s with
      | none => .error .invalidUrl
      | some u =>
        (SourceId.new .Registry u none).map (·.withPrecise (some "locked"))
    else if kind = "path" then
      match parseUrl url with
      | none => .error .invalidUrl
      | some u => SourceId.new .Path u none
    else .error .unsupportedSourceKind

/-- `PackageId`. -/
structure PackageId where
  name : String
  version : Version
  sourceId : SourceId
deriving DecidableEq, Repr

/-- Strip the matching `(`/`)` delimiters
(`strip_prefix('(').and_then(strip_suffix(')'))`). -/
def stripParens (s : String) : Option String :=
  match s.data with
  | c :: rest =>
    if c = '(' then
      match rest.getLast? with
      | some c2 => if c2 = ')' then some ⟨rest.dropLast⟩ else none
      | none => none
    else none
  | [] => none

/-- `PackageId::deserialize` (`src/cargo.rs` lines 33-62): split on the
first two spaces into name, version and source; the version segment is
trimmed and parsed as SemVer; the source segment loses its parentheses and
goes through `SourceId::from_url`.  The three split/parse/paren failures are
the `MalformedIdentifier` class ("invalid serialized PackageId"). -/
def parsePackageId (s : String) : Except Err PackageId :=
  match splitOnce s ' ' with
  | none => .error .malformedIdentifier
  | some (name, rest) =>
    match splitOnce rest ' ' with
    | none => .error .malformedIdentifier
    | some (verStr, urlPart) =>
      match parseVersion (strTrim verStr) with
      | none => .error .malformedIdentifier
      | some version =>
        match stripParens urlPart with
        | none => .error .malformedIdentifier
        | some inner =>
          (sourceIdFromUrl inner).map fun sourceId => { name, version, sourceId }

/-! ## SipHash-2-4 (the `siphasher` crate, zero keys)

`SipHasher24::new()` starts from the zero key pair, so the initial state is
the bare SipHash constants.  Rust's `Hash` for `CanonicalUrl` reaches the
hasher through the `url` crate (which hashes the serialization `String`) and
`str`'s `Hash` (which writes the UTF-8 bytes followed by one `0xff` byte);
the message fed to SipHash is therefore the serialization's bytes plus
`0xff`.  All 64-bit arithmetic is on `Nat` with explicit `% 2 ^ 64`. -/

def mask64 (n : Nat) : Nat := n % (2 ^ 64)

def rotl64 (x n : Nat) : Nat := mask64 ((x <<< n) ||| (x >>> (64 - n)))

structure SipState where
  v0 : Nat
  v1 : Nat
  v2 : Nat
  v3 : Nat

/-- One SIPROUND. -/
def sipRound (s : SipState) : SipState :=
  let v0 := mask64 (s.v0 + s.v1)
  let v1 := rotl64 s.v1 13
  let v1 := v1 ^^^ v0
  let v0 := rotl64 v0 32
  let v2 := mask64 (s.v2 + s.v3)
  let v3 := rotl64 s.v3 16
  let v3 := v3 ^^^ v2
  let v0 := mask64 (v0 + v3)
  let v3 := rotl64 v3 21
  let v3 := v3 ^^^ v0
  let v2 := mask64 (v2 + v1)
  let v1 := rotl64 v1 17
  let v1 := v1 ^^^ v2
  let v2 := rotl64 v2 32
  { v0, v1, v2, v3 }

/-- Compress one 64-bit message word (2 rounds for SipHash-2-4). -/
def sipCompress (s : SipState) (m : Nat) : SipState :=
  let s := { s with v3 := s.v3 ^^^ m }
  let s := sipRound (sipRound s)
  { s with v0 := s.v0 ^^^ m }

/-- Little-endian word from up to 8 bytes. -/
def leWord : List Nat → Nat
  | [] => 0
  | b :: bs => b + 256 * leWord bs

/-- Process all full 8-byte blocks, returning the state and the remainder. -/
def sipBlocks : SipState → List Nat → SipState × List Nat
  | s, b0 :: b1 :: b2 :: b3 :: b4 :: b5 :: b6 :: b7 :: rest =>
    sipBlocks (sipCompress s (leWord [b0, b1, b2, b3, b4, b5, b6, b7])) rest
  | s, rest => (s, rest)

/-- The initial state for the zero key pair. -/
def sipInit : SipState :=
  { v0 := 0x736f6d6570736575, v1 := 0x646f72616e646f6d,
    v2 := 0x6c7967656e657261, v3 := 0x7465646279746573 }

/-- SipHash-2-4 with zero keys over a byte list (`SipHasher24` fed the bytes
through `Hasher::write`, then `finish`). -/
def sipHash24 (bytes : List Nat) : Nat :=
  let (s, rest) := sipBlocks sipInit bytes
  let b := mask64 (((bytes.length % 256) <<< 56) ||| leWord rest)
  let s := sipCompress s b
  let s := { s with v2 := s.v2 ^^^ 0xff }
  let s := sipRound (sipRound (sipRound (sipRound s)))
  ((s.v0 ^^^ s.v1) ^^^ s.v2) ^^^ s.v3

/-- UTF-8 encoding of one scalar value. -/
def utf8Encode (c : Char) : List Nat :=
  let n := c.toNat
  if n < 0x80 then [n]
  else if n < 0x800 then [0xC0 + n / 64, 0x80 + n % 64]
  else if n < 0x10000 then [0xE0 + n / 4096, 0x80 + n / 64 % 64, 0x80 + n % 64]
  else [0xF0 + n / 262144, 0x80 + n / 4096 % 64, 0x80 + n / 64 % 64, 0x80 + n % 64]

/-- The UTF-8 bytes of a string. -/
def strBytes (s : String) : List Nat :=
  (s.data.map utf8Encode).flatten

/-- `canonical_url.hash(&mut hasher); hasher.finish()`: SipHash-2-4 of the
URL serialization's bytes followed by the `0xff` terminator that `str`'s
`Hash` impl writes. -/
def hashCanonicalUrl (cu : CanonicalUrl) : Nat :=
  sipHash24 (strBytes (serializeUrl cu.inner) ++ [0xff])

/-- One lower-case hexadecimal digit. -/
def hexDigitChar (n : Nat) : Char :=
  if n < 10 then Char.ofNat (48 + n) else Char.ofNat (87 + n)

/-- The eight little-endian bytes of a 64-bit value (`u64::to_le_bytes`). -/
def leBytes (h : Nat) : List Nat :=
  (List.range 8).map fun k => h / 256 ^ k % 256

/-- `hex::encode` of the little-endian bytes of a 64-bit value. -/
def hexLE64 (h : Nat) : String :=
  ⟨((leBytes h).map fun b => [hexDigitChar (b / 16), hexDigitChar (b % 16)]).flatten⟩

/-- A lower-case hexadecimal digit character. -/
def isLowerHexChar (c : Char) : Bool :=
  c.isDigit || (97 ≤ c.toNat && c.toNat ≤ 102)

/-! ## Cache path derivation (`get_git_repo_path`, `src/git.rs` 217-235)

Only the directory *name* under `$CARGO_HOME/git/db` is modelled; the
`cargo_home()` prefix is environment state. -/

/-- `Url::path_segments`: `None` for cannot-be-a-base URLs and for URLs with
an empty path. -/
def urlPathSegments (u : Url) : Option (List String) :=
  if u.cannotBeABase then none
  else if u.pathSegs = [] then none
  else some u.pathSegs

/-- The cache directory name `"{ident}-{hash}"` derived in
`get_git_repo_path` (and inlined in `collect_updates` of `src/main.rs`):
`ident` is the *last* path segment of the canonical URL (`_empty` when there
are no segments or it is empty), `hash` the lower-case hex of the
little-endian bytes of the SipHash-2-4 of the `CanonicalUrl` value. -/
def repoDirName (cu : CanonicalUrl) : String :=
  let ident := (((urlPathSegments cu.inner).bind List.getLast?).getD "")
  let ident := if ident = "" then "_empty" else ident
  ident ++ "-" ++ hexLE64 (hashCanonicalUrl cu)

/-- The spec's own description of the same derivation (§4.3): `ident` is the
last *non-empty* path segment, or `_empty` if the path has no segments.
Kept separate so it can be compared with the source's rule. -/
def cacheDirNameSpec (cu : CanonicalUrl) : String :=
  let ident :=
    (((urlPathSegments cu.inner).getD []).filter (fun seg => seg ≠ "")).getLast?.getD "_empty"
  ident ++ "-" ++ hexLE64 (hashCanonicalUrl cu)

/-! ## The registry detector (`src/registry.rs`) -/

/-- One crate in the registry index: its published version strings in
publication order; `crates_index::Crate::latest_version` is the most
recently published one, i.e. the last. -/
structure IndexCrate where
  versions : List String
deriving DecidableEq, Repr

def latestVersionStr (c : IndexCrate) : String := (c.versions.getLast?).getD ""

/-- The registry index, queryable by crate name. -/
abbrev RegistryIndex := List (String × IndexCrate)

def indexLookup (index : RegistryIndex) (name : String) : Option IndexCrate :=
  (index.find? (fun e => e.1 = name)).map (·.2)

structure RegistryInfo where
  version : Version
deriving DecidableEq, Repr

/-- Remote Git repository location for the main crates.io registry. -/
def CRATES_IO_GIT_URL : String := "https://github.com/rust-lang/crates.io-index"

/-- `registry::check_update` (`src/registry.rs` lines 19-40). -/
def registryCheckUpdate (index : RegistryIndex) (package : PackageId) (pre : Bool) :
    Except Err (Option RegistryInfo) :=
  if serializeUrl package.sourceId.url ≠ CRATES_IO_GIT_URL then .ok none
  else
    match indexLookup index package.name with
    | none => .error .packageNotFound
    | some krate =>
      match parseVersion (latestVersionStr krate) with
      | none => .error .invalidUpstreamVersion
      | some latest =>
        if latest.pre ≠ [] ∧ pre = false then .ok none
        else .ok (if versionGt latest package.version then some { version := latest } else none)

/-! ## The Git repository model

A repository is a finite commit graph plus a tree-diff oracle standing for
`gix`'s tree-to-tree diff (one entry per changed file, optionally carrying
`(insertions, removals)` line counts, `None` when `line_counts()` yields
none). -/

abbrev ObjectId := String

structure CommitC where
  id : ObjectId
  parents : List ObjectId
deriving DecidableEq, Repr

structure Repo where
  commits : List CommitC
  treeDiff : ObjectId → ObjectId → List (Option (Nat × Nat))

def findCommitInRepo (repo : Repo) (id : ObjectId) : Option CommitC :=
  repo.commits.find? (fun c => c.id = id)

/-- Fuel that upper-bounds the number of BFS iterations: one initial
enqueue, plus at most one enqueue per parent edge, plus slack. -/
def ancestorsFuel (repo : Repo) : Nat :=
  1 + repo.commits.length + (repo.commits.map (fun c => c.parents.length)).sum

/-- Breadth-first ancestry walk.  The tip is yielded first (as `gix`'s
`ancestors().all()` does); a lookup failure truncates the walk, matching
`map_while(Result::ok)` over a failing traversal. -/
def ancestorsAux (repo : Repo) : Nat → List ObjectId → List ObjectId → List CommitC
  | 0, _, _ => []
  | _ + 1, [], _ => []
  | n + 1, id :: queue, visited =>
    if id ∈ visited then ancestorsAux repo n queue visited
    else
      match findCommitInRepo repo id with
      | none => []
      | some c => c :: ancestorsAux repo n (queue ++ c.parents) (id :: visited)

/-- `commit.ancestors().all()`, starting from `c`. -/
def ancestors (repo : Repo) (c : CommitC) : List CommitC :=
  ancestorsAux repo (ancestorsFuel repo) [c.id] []

/-- `GitChanges` (`src/models.rs`); `Default` is all zeroes. -/
structure GitChanges where
  commits : Nat := 0
  files_changed : Nat := 0
  insertions : Nat := 0
  deletions : Nat := 0
deriving DecidableEq, Repr

/-- `git_changes` (`src/git.rs` lines 163-215): count the ancestors of
`new`, *stopping at the first commit whose id equals `new.id`*; when the
count is zero return the all-zero default without diffing, otherwise diff
the two trees and fold up the line counts. -/
def gitChanges (repo : Repo) (old new : CommitC) : GitChanges :=
  let commits := ((ancestors repo new).takeWhile (fun commit => commit.id ≠ new.id)).length
  if commits = 0 then {}
  else
    let changes := repo.treeDiff old.id new.id
    { commits := commits,
      files_changed := changes.length,
      insertions := (changes.filterMap id).foldl (fun a c => a + c.1) 0,
      deletions := (changes.filterMap id).foldl (fun a c => a + c.2) 0 }

/-- `GitTarget` (`src/models.rs`). -/
inductive GitTarget where
  | Default
  | Branch (b : String)
deriving DecidableEq, Repr

/-- `GitInfo` (`src/models.rs`); `rtype` stands for the raw-identifier
field `r#type`. -/
structure GitInfo where
  rtype : String
  old_commit : ObjectId
  new_commit : ObjectId
  changes : GitChanges
  target : GitTarget
deriving DecidableEq, Repr

/-- `ObjectId::from_str` of `gix`: 40 hexadecimal digits. -/
def isHexDigitChar (c : Char) : Bool :=
  c.isDigit || (97 ≤ c.toNat && c.toNat ≤ 102) || (65 ≤ c.toNat && c.toNat ≤ 70)

def parseObjectId (s : String) : Option ObjectId :=
  if s.data.length = 40 ∧ s.data.all isHexDigitChar then some (lowerStr s) else none

/-- The effectful repository operations of `check_update` (`src/git.rs`),
as an oracle: opening/initialising the cache repository, configuring the
anonymous remote, replacing the fetch refspec, fetching, and resolving the
pinned commit and the tracking ref. -/
structure GitWorld where
  openOrInit : String → Except String Repo
  remoteAt : Repo → String → Except String Unit
  replaceRefspecs : Repo → String → Except String Unit
  fetch : Repo → Except String Unit
  findObjectCommit : Repo → ObjectId → Except String CommitC
  resolveRefCommit : Repo → String → Except String CommitC

/-- The tail of `check_update` after the reference-kind dispatch: replace
the refspec, fetch, resolve `old` and `new`, compute the changes, and emit
`GitInfo` only when `commits > 0`. -/
def checkUpdateFetch (w : GitWorld) (repo : Repo) (commitId : ObjectId)
    (refspec target rtype : String) (gitTarget : GitTarget) :
    Except Err (Option GitInfo) :=
  match w.replaceRefspecs repo refspec with
  | .error e => .error (.repositoryAccess e)
  | .ok _ =>
    match w.fetch repo with
    | .error e => .error (.repositoryAccess e)
    | .ok _ =>
      match w.findObjectCommit repo commitId with
      | .error e => .error (.repositoryAccess e)
      | .ok current =>
        match w.resolveRefCommit repo target with
        | .error e => .error (.repositoryAccess e)
        | .ok latest =>
          let changes := gitChanges repo current latest
          .ok (if changes.commits > 0 then
              some { rtype, old_commit := current.id, new_commit := latest.id,
                     changes, target := gitTarget }
            else none)

/-- `git::check_update` (`src/git.rs` lines 22-80): disabled category →
`None`; missing pin → `None`; a pin that does not parse as a commit id →
*error* (the `?` on `c.parse::<ObjectId>()`); then the repository is opened
and the remote configured (both fallible) *before* the reference kind is
examined; `Tag`/`Rev` → `None`; `Branch`/`DefaultBranch` proceed to the
fetch tail. -/
def checkUpdate (w : GitWorld) (package : PackageId) (gitRef : GitReference)
    (git : Bool) : Except Err (Option GitInfo) :=
  if git = false then .ok none
  else
    match package.sourceId.precise with
    | none => .ok none
    | some c =>
      match parseObjectId c with
      | none => .error .invalidCommitId
      | some commitId =>
        match w.openOrInit (repoDirName package.sourceId.canonicalUrl) with
        | .error e => .error (.repositoryAccess e)
        | .ok repo =>
          match w.remoteAt repo (serializeUrl package.sourceId.url) with
          | .error e => .error (.repositoryAccess e)
          | .ok _ =>
            match gitRef with
            | .Tag _ => .ok none
            | .Rev _ => .ok none
            | .Branch b =>
              checkUpdateFetch w repo commitId
                ("+refs/heads/" ++ b ++ ":refs/remotes/origin/" ++ b)
                ("refs/remotes/origin/" ++ b) ("branch " ++ b) (.Branch b)
            | .DefaultBranch =>
              checkUpdateFetch w repo commitId "+HEAD:refs/remotes/origin/HEAD"
                "refs/remotes/origin/HEAD" "HEAD" .Default

/-! ## The `git2`-based collector (`src/main.rs`)

`collect_updates` (lines 135-253) iterates the ordered install set and
dispatches on the source kind, propagating any per-package failure with `?`
— which aborts the whole loop.  Its Git arm uses the `git2` flavour of
`git_changes` (lines 472-488): `graph_ahead_behind` counts the commits
reachable from `new` but not from `old`. -/

/-- The ids reachable from `id` in the commit graph (the ancestor set). -/
def reachable (repo : Repo) (id : ObjectId) : List ObjectId :=
  (ancestorsAux repo (ancestorsFuel repo) [id] []).map (fun c => c.id)

/-- The `behind` component of `git2`'s `graph_ahead_behind(old, new)`:
commits reachable from `new` but not from `old`. -/
def mainBehind (repo : Repo) (oldId newId : ObjectId) : Nat :=
  ((reachable repo newId).filter (fun i => ¬ i ∈ reachable repo oldId)).length

/-- Oracle for the effectful `git2` operations of `collect_updates`. -/
structure MainWorld where
  repoDirExists : String → Bool
  openBare : String → Except String Repo
  remoteAnonymous : Repo → String → Except String Unit
  fetchTarget : Repo → String → Except String Unit
  findReferenceCommit : Repo → String → Except String CommitC
  treeDiffStats : Repo → ObjectId → ObjectId → Except String (Nat × Nat × Nat)

/-- `git_changes` (`src/main.rs` lines 472-488): `commits` is the `behind`
count; the diff stats come from `diff_tree_to_tree(...).stats()` (the
`ahead != 0` case is only logged). -/
def mainGitChanges (w : MainWorld) (repo : Repo) (old new : CommitC) :
    Except Err GitChanges :=
  let behind := mainBehind repo old.id new.id
  match w.treeDiffStats repo old.id new.id with
  | .error e => .error (.repositoryAccess e)
  | .ok (f, ins, del) =>
    .ok { commits := behind, files_changed := f, insertions := ins, deletions := del }

/-- `InstallInfo` (`src/cargo.rs`): opaque install metadata, forwarded
unchanged (the `rustc` field stands for the parsed `VersionMeta`). -/
structure InstallInfo where
  version_req : Option String
  bins : List String
  features : List String
  all_features : Bool
  no_default_features : Bool
  profile : String
  target : String
  rustc : String
deriving DecidableEq, Repr

/-- The `GitInfo` variant of `src/main.rs` (lines 280-285). -/
structure MainGitInfo where
  path : String
  old_commit : ObjectId
  new_commit : ObjectId
  changes : GitChanges
deriving DecidableEq, Repr

structure PathInfo where
deriving DecidableEq, Repr

structure UpdateInfo (T : Type) where
  install_info : InstallInfo
  extra : T
deriving DecidableEq, Repr

/-- `Updates` (`src/main.rs` lines 255-260); the ordered maps are modelled
as lists in insertion order. -/
structure Updates where
  registry : List (PackageId × UpdateInfo RegistryInfo) := []
  git : List (PackageId × UpdateInfo MainGitInfo) := []
  path : List (PackageId × UpdateInfo PathInfo) := []
deriving DecidableEq, Repr

/-- `SelectArgs` (`--pre`, `--git`, `--path`). -/
structure SelectArgs where
  pre : Bool
  git : Bool
  path : Bool
deriving DecidableEq, Repr

/-- The kind-specific payload produced for one package by the loop body of
`collect_updates`. -/
inductive PkgUpdate where
  | registry (info : RegistryInfo)
  | gitU (info : MainGitInfo)
  | pathU
deriving DecidableEq, Repr

/-- The Git arm's tail: fetch the target, resolve
`refs/remotes/origin/<target>` and `FETCH_HEAD` (a resolution failure is a
`bail!`), compute the changes, and report only when `commits > 0`. -/
def mainFetchAndDiff (w : MainWorld) (repo : Repo) (path target : String) :
    Except Err (Option PkgUpdate) :=
  match w.fetchTarget repo target with
  | .error e => .error (.repositoryAccess e)
  | .ok _ =>
    match w.findReferenceCommit repo ("refs/remotes/origin/" ++ target) with
    | .error e => .error (.repositoryAccess e)
    | .ok head =>
      match w.findReferenceCommit repo "FETCH_HEAD" with
      | .error e => .error (.repositoryAccess e)
      | .ok fetchHead =>
        match mainGitChanges w repo head fetchHead with
        | .error e => .error e
        | .ok changes =>
          .ok (if changes.commits > 0 then
              some (.gitU { path, old_commit := head.id, new_commit := fetchHead.id,
                            changes })
            else none)

/-- The loop body of `collect_updates` for one package: dispatch on the
source kind.  The Git arm checks the flag, derives the cache directory,
skips (with only a printed note) when the directory is missing, and
`todo!()`-panics on `Tag`; the Registry arm looks the crate up (an absent
crate is an error), parses the most recent version, applies the pre-release
gate and the `latest > installed` comparison. -/
def processPackage (w : MainWorld) (index : RegistryIndex) (args : SelectArgs)
    (package : PackageId) : Except Err (Option PkgUpdate) :=
  match package.sourceId.kind with
  | .Git gitRef =>
    if args.git = false then .ok none
    else
      let path := repoDirName package.sourceId.canonicalUrl
      if w.repoDirExists path then
        match w.openBare path with
        | .error e => .error (.repositoryAccess e)
        | .ok repo =>
          match w.remoteAnonymous repo (serializeUrl package.sourceId.url) with
          | .error e => .error (.repositoryAccess e)
          | .ok _ =>
            match gitRef with
            | .Tag _ => .error .notImplemented
            | .Rev _ => .ok none
            | .Branch b => mainFetchAndDiff w repo path b
            | .DefaultBranch => mainFetchAndDiff w repo path "HEAD"
      else .ok none
  | .Path =>
    if args.path then .ok (some .pathU) else .ok none
  | .Registry =>
    match indexLookup index package.name with
    | none => .error .packageNotFound
    | some krate =>
      match parseVersion (latestVersionStr krate) with
      | none => .error .invalidUpstreamVersion
      | some latest =>
        if latest.pre ≠ [] ∧ args.pre = false then .ok none
        else if versionGt latest package.version then
          .ok (some (.registry { version := latest }))
        else .ok none

/-- Insert one produced update into the partitioned result maps. -/
def insertUpdate (acc : Updates) (package : PackageId) (info : InstallInfo) :
    PkgUpdate → Updates
  | .registry r => { acc with registry := acc.registry ++ [(package, ⟨info, r⟩)] }
  | .gitU g => { acc with git := acc.git ++ [(package, ⟨info, g⟩)] }
  | .pathU => { acc with path := acc.path ++ [(package, ⟨info, ⟨⟩⟩)] }

/-- `collect_updates` (`src/main.rs` lines 135-253): fold the loop body over
the ordered install set; the first per-package error aborts the whole
collection (the `?` propagation), discarding the updates gathered so far. -/
def collectUpdates (w : MainWorld) (index : RegistryIndex) (args : SelectArgs) :
    List (PackageId × InstallInfo) → Updates → Except Err Updates
  | [], acc => .ok acc
  | (package, info) :: rest, acc =>
    match processPackage w index args package with
    | .error e => .error e
    | .ok none => collectUpdates w index args rest acc
    | .ok (some upd) => collectUpdates w index args rest (insertUpdate acc package info upd)

/-! ## Concrete fixtures used by the theorems below -/

/-- The parse of `https://example.com/a//`: a path with a doubled slash. -/
def urlDoubleSlash : Url :=
  { scheme := "https", host := some "example.com", pathSegs := ["a", "", ""],
    query := none, fragment := none, cannotBeABase := false }

/-- A concrete clean URL, already a fixed point of canonicalization. -/
def urlClean : Url :=
  { scheme := "https", host := some "example.com", pathSegs := ["x"],
    query := none, fragment := none, cannotBeABase := false }

/-- A two-commit repository: `bb` is one commit ahead of `aa` and their
trees differ in one file. -/
def repoPair : Repo :=
  { commits := [{ id := "aa", parents := [] }, { id := "bb", parents := ["aa"] }],
    treeDiff := fun _ _ => [some (10, 2)] }

/-- A two-commit repository for exercising C10's hypothesis. -/
def repoPairB : Repo :=
  { commits := [{ id := "cc", parents := [] }, { id := "dd", parents := ["cc"] }],
    treeDiff := fun _ _ => [some (3, 4)] }

/-- A generic hosted repository URL. -/
def urlExample : Url :=
  { scheme := "https", host := some "example.com", pathSegs := ["repo"],
    query := none, fragment := none, cannotBeABase := false }

/-- The parsed crates.io index URL (its own canonical fixed point). -/
def urlCratesIndex : Url :=
  { scheme := "https", host := some "github.com",
    pathSegs := ["rust-lang", "crates.io-index"],
    query := none, fragment := none, cannotBeABase := false }

/-- A `GitWorld` whose open/remote/refspec/fetch steps succeed on an empty
repository and whose resolutions fail. -/
def gitWorldA : GitWorld :=
  { openOrInit := fun _ => .ok { commits := [], treeDiff := fun _ _ => [] },
    remoteAt := fun _ _ => .ok (),
    replaceRefspecs := fun _ _ => .ok (),
    fetch := fun _ => .ok (),
    findObjectCommit := fun _ _ => .error "missing object",
    resolveRefCommit := fun _ _ => .error "missing reference" }

/-- A Git-sourced package pinned at a string that is not a commit id. -/
def pkgBadPrecise : PackageId :=
  { name := "x",
    version := { major := 1, minor := 0, patch := 0, pre := [], build := [] },
    sourceId :=
      { url := urlExample, canonicalUrl := { inner := urlExample },
        kind := .Git (.Branch "main"), precise := some "zzz", name := none } }

/-- A Git-sourced package with no pinned commit. -/
def pkgNoPrecise : PackageId :=
  { name := "y",
    version := { major := 1, minor := 0, patch := 0, pre := [], build := [] },
    sourceId :=
      { url := urlExample, canonicalUrl := { inner := urlExample },
        kind := .Git (.Branch "main"), precise := none, name := none } }

/-- A tag-referenced package whose pin is not a commit id. -/
def pkgTagBadPrecise : PackageId :=
  { name := "z",
    version := { major := 1, minor := 0, patch := 0, pre := [], build := [] },
    sourceId :=
      { url := urlExample, canonicalUrl := { inner := urlExample },
        kind := .Git (.Tag "v1"), precise := some "nothex", name := none } }

/-- A tag-referenced package with a well-formed 40-hex pin. -/
def pkgTagGoodPrecise : PackageId :=
  { name := "w",
    version := { major := 1, minor := 0, patch := 0, pre := [], build := [] },
    sourceId :=
      { url := urlExample, canonicalUrl := { inner := urlExample },
        kind := .Git (.Tag "v1"),
        precise := some "aaaaaaaaaaaaaaaaaaaaaaaaaaaaaaaaaaaaaaaa", name := none } }

/-- A registry package installed at `1.2.3` from crates.io. -/
def pkgFoo : PackageId :=
  { name := "foo",
    version := { major := 1, minor := 2, patch := 3, pre := [], build := [] },
    sourceId :=
      { url := urlCratesIndex, canonicalUrl := { inner := urlCratesIndex },
        kind := .Registry, precise := some "locked", name := none } }

/-- An index whose latest `foo` differs from `1.2.3` only in build
metadata. -/
def idxFoo : RegistryIndex := [("foo", { versions := ["1.2.3+git"] })]

/-- A registry package installed at `1.0.0` from crates.io. -/
def pkgBar : PackageId :=
  { name := "bar",
    version := { major := 1, minor := 0, patch := 0, pre := [], build := [] },
    sourceId :=
      { url := urlCratesIndex, canonicalUrl := { inner := urlCratesIndex },
        kind := .Registry, precise := some "locked", name := none } }

def idxBar : RegistryIndex := [("bar", { versions := ["1.1.0"] })]

/-- A registry package whose name is absent from `idxBar`. -/
def pkgMissing : PackageId :=
  { name := "absent",
    version := { major := 1, minor := 0, patch := 0, pre := [], build := [] },
    sourceId :=
      { url := urlCratesIndex, canonicalUrl := { inner := urlCratesIndex },
        kind := .Registry, precise := some "locked", name := none } }

/-- A `MainWorld` with no cached repositories. -/
def mainWorldNone : MainWorld :=
  { repoDirExists := fun _ => false,
    openBare := fun _ => .error "no repo",
    remoteAnonymous := fun _ _ => .ok (),
    fetchTarget := fun _ _ => .ok (),
    findReferenceCommit := fun _ _ => .error "no ref",
    treeDiffStats := fun _ _ _ => .error "no diff" }

/-- Install metadata fixture. -/
def infoDefault : InstallInfo :=
  { version_req := none, bins := ["bin"], features := [], all_features := false,
    no_default_features := false, profile := "release", target := "host",
    rustc := "rustc 1.70.0" }

/-- Collector flags: only registry checks (neither `--git` nor `--path`). -/
def argsNone : SelectArgs := { pre := false, git := false, path := false }

/-- The update entry the collector produces for `pkgBar` alone. -/
def updatesBarOnly : Updates :=
  { registry := [(pkgBar,
      { install_info := infoDefault,
        extra := { version := { major := 1, minor := 1, patch := 0,
                                pre := [], build := [] } } })],
    git := [], path := [] }

/-- The canonical URL `https://example.com/a/` with its trailing empty
segment, reachable as the canonicalization of `urlDoubleSlash`. -/
def cuTrailing : CanonicalUrl :=
  { inner := { scheme := "https", host := some "example.com", pathSegs := ["a", ""],
               query := none, fragment := none, cannotBeABase := false } }

/-- The identifier text for C8's counterexample: its version segment starts
with a tab. -/
def identTab : String := "a \t1.0.0 (registry+https://example.com/index)"

/-! # Theorems

## Structural lemmas about the canonicalizer -/

theorem stripSlashStep_cannotBeABase (u : Url) :
    (stripSlashStep u).cannotBeABase = u.cannotBeABase := by
  unfold stripSlashStep; split <;> rfl

theorem githubStep_cannotBeABase (u : Url) :
    (githubStep u).cannotBeABase = u.cannotBeABase := by
  unfold githubStep; split <;> rfl

theorem chopGitStep_cannotBeABase (u : Url) :
    (chopGitStep u).cannotBeABase = u.cannotBeABase := by
  unfold chopGitStep; split <;> rfl

theorem sparseStep_cannotBeABase (u : Url) :
    (sparseStep u).cannotBeABase = u.cannotBeABase := by
  unfold sparseStep; split <;> rfl

theorem stripSlashStep_host (u : Url) : (stripSlashStep u).host = u.host := by
  unfold stripSlashStep; split <;> rfl

theorem githubStep_host (u : Url) : (githubStep u).host = u.host := by
  unfold githubStep; split <;> rfl

theorem chopGitStep_host (u : Url) : (chopGitStep u).host = u.host := by
  unfold chopGitStep; split <;> rfl

theorem sparseStep_host (u : Url) : (sparseStep u).host = u.host := by
  unfold sparseStep; split <;> rfl

theorem chopGitStep_scheme (u : Url) : (chopGitStep u).scheme = u.scheme := by
  unfold chopGitStep; split <;> rfl

/-- `canonicalize` only succeeds on base URLs and never changes the host. -/
theorem canonicalize_ok_inv (u v : Url) (h : canonicalize u = .ok v) :
    v.cannotBeABase = false ∧ v.host = u.host := by
  unfold canonicalize at h
  split at h
  · exact absurd h (by simp)
  next hc =>
    injection h with h
    subst h
    refine ⟨?_, ?_⟩
    · rw [sparseStep_cannotBeABase, chopGitStep_cannotBeABase, githubStep_cannotBeABase,
        stripSlashStep_cannotBeABase]
      exact Bool.not_eq_true _ ▸ Bool.of_not_eq_true hc
    · rw [sparseStep_host, chopGitStep_host, githubStep_host, stripSlashStep_host]

theorem map_lowerStr_idem (l : List String) :
    (l.map lowerStr).map lowerStr = l.map lowerStr := by
  rw [List.map_map]
  exact List.map_congr_left fun s _ => lowerStr_lowerStr s

theorem lowerStr_strDropRight (s : String) (n : Nat) (hs : lowerStr s = s) :
    lowerStr (strDropRight s n) = strDropRight s n := by
  have hdata : s.data.map Char.toLower = s.data := congrArg String.data hs
  unfold lowerStr strDropRight
  rw [List.map_take, hdata]

theorem chopGit_lowfixed (l : List String) (hl : l.map lowerStr = l) :
    (chopGit l).map lowerStr = chopGit l := by
  unfold chopGit
  cases hgl : l.getLast? with
  | none => exact hl
  | some last =>
    have hlast : lowerStr last = last := by
      have hm := congrArg List.getLast? hl
      rw [List.getLast?_map, hgl] at hm
      exact Option.some.inj hm
    have hdl : l.dropLast.map lowerStr = l.dropLast := by
      rw [List.map_dropLast]
      exact congrArg List.dropLast hl
    rw [List.map_append, hdl, List.map_singleton, lowerStr_strDropRight last 4 hlast]

/-- After a successful canonicalization whose result is hosted at
`github.com`, the scheme has been forced to `https` and the path is already
lower-case. -/
theorem canonicalize_ok_github (u v : Url) (h : canonicalize u = .ok v)
    (hg : v.host = some "github.com") :
    v.scheme = "https" ∧ v.pathSegs.map lowerStr = v.pathSegs := by
  have hhost := (canonicalize_ok_inv u v h).2
  unfold canonicalize at h
  split at h
  · exact absurd h (by simp)
  · injection h with h
    subst h
    set w := stripSlashStep u with hw
    have hwh : w.host = some "github.com" := by
      have : w.host = u.host := stripSlashStep_host u
      rw [this, ← hhost, ← hg]
    have hgsplit : githubStep w =
        { w with scheme := "https", pathSegs := w.pathSegs.map lowerStr } := by
      unfold githubStep
      rw [if_pos hwh]
    set g : Url := { w with scheme := "https", pathSegs := w.pathSegs.map lowerStr }
      with hgdef
    rw [hgsplit]
    have hglow : g.pathSegs.map lowerStr = g.pathSegs := map_lowerStr_idem _
    have hgsch : g.scheme = "https" := rfl
    -- the chop step preserves the scheme and lower-case-ness
    have hcsch : (chopGitStep g).scheme = "https" := by rw [chopGitStep_scheme]
    have hclow : (chopGitStep g).pathSegs.map lowerStr = (chopGitStep g).pathSegs := by
      unfold chopGitStep
      split
      · exact chopGit_lowfixed _ hglow
      · exact hglow
    -- the sparse step does not fire on `https`
    have hsp : sparseStep (chopGitStep g) = chopGitStep g := by
      unfold sparseStep
      rw [hcsch, if_neg (by decide : ¬ strStartsWith "https" "sparse+" = true)]
    rw [hsp]
    exact ⟨hcsch, hclow⟩

/-- C3, the claim as stated: `urlDoubleSlash` canonicalizes to
`https://example.com/a/` (the single `pop_if_empty` leaves one trailing
empty segment), which canonicalizes further to `https://example.com/a`, so
`canonicalize` is not idempotent. -/
theorem canonicalize_not_idempotent_double_slash :
    parseUrl "https://example.com/a//" = some urlDoubleSlash
    ∧ (canonicalize urlDoubleSlash).bind canonicalize ≠ canonicalize urlDoubleSlash := by
  constructor
  · rfl
  · decide

/-- C3, amended: canonicalization is idempotent at every accepted URL whose
canonical form has no trailing slash, no trailing `.git`, and no remaining
`sparse+` scheme prefix (each rewrite step fires again on the canonical form
otherwise). -/
theorem canonicalize_idempotent_of_clean (u v : Url) (h : canonicalize u = .ok v)
    (h1 : strEndsWith (pathString v) "/" = false)
    (h2 : strEndsWith (pathString v) ".git" = false)
    (h3 : strStartsWith v.scheme "sparse+" = false) :
    canonicalize v = .ok v := by
  have inv := canonicalize_ok_inv u v h
  unfold canonicalize
  rw [inv.1]
  simp only [Bool.false_eq_true, if_false]
  have hs1 : stripSlashStep v = v := by
    unfold stripSlashStep
    rw [h1]
    simp
  rw [hs1]
  have hs2 : githubStep v = v := by
    unfold githubStep
    by_cases hg : v.host = some "github.com"
    · obtain ⟨hsch, hsegs⟩ := canonicalize_ok_github u v h hg
      rw [if_pos hg, hsegs, ← hsch]
    · rw [if_neg hg]
  rw [hs2]
  have hs3 : chopGitStep v = v := by
    unfold chopGitStep
    rw [h2]
    simp
  rw [hs3]
  have hs4 : sparseStep v = v := by
    unfold sparseStep
    rw [h3]
    simp
  rw [hs4]

/-- Witness for the amended C3 at a concrete clean URL. -/
theorem canonicalize_idempotent_witness :
    canonicalize urlClean = .ok urlClean :=
  canonicalize_idempotent_of_clean urlClean urlClean (by decide) (by decide) (by decide)
    (by decide)

/-- C7: `https://GitHub.com/Foo/Bar.git/` and `https://github.com/foo/bar`
canonicalize to the same value, whose serialization is
`https://github.com/foo/bar`. -/
theorem canonicalize_github_case_and_git_suffix :
    (parseUrl "https://GitHub.com/Foo/Bar.git/").map canonicalize
      = (parseUrl "https://github.com/foo/bar").map canonicalize
    ∧ (parseUrl "https://GitHub.com/Foo/Bar.git/").map
        (fun u => (canonicalize u).map serializeUrl)
      = some (.ok "https://github.com/foo/bar") := by
  constructor
  · rfl
  · rfl

/-! ## The ancestry walk and the commit count -/

theorem findCommitInRepo_id (repo : Repo) (id : ObjectId) (c0 : CommitC)
    (h : findCommitInRepo repo id = some c0) : c0.id = id := by
  unfold findCommitInRepo at h
  have := List.find?_some h
  simpa using this

/-- The walk either fails at once or yields the tip first. -/
theorem ancestors_head_id (repo : Repo) (c : CommitC) :
    ancestors repo c = [] ∨
      ∃ c0 rest, ancestors repo c = c0 :: rest ∧ c0.id = c.id := by
  unfold ancestors
  obtain ⟨m, hm⟩ : ∃ m, ancestorsFuel repo = m + 1 :=
    ⟨repo.commits.length + (repo.commits.map (fun c => c.parents.length)).sum, by
      unfold ancestorsFuel
      omega⟩
  rw [hm]
  unfold ancestorsAux
  rw [if_neg (by simp)]
  cases hf : findCommitInRepo repo c.id with
  | none => exact Or.inl rfl
  | some c0 => exact Or.inr ⟨c0, _, rfl, findCommitInRepo_id repo c.id c0 hf⟩

/-- The `take_while (commit.id != new.id)` count over `new`'s own ancestry
is always zero: the walk yields `new` first (or nothing at all). -/
theorem gitChanges_count_eq_zero (repo : Repo) (new : CommitC) :
    ((ancestors repo new).takeWhile (fun commit => commit.id ≠ new.id)).length = 0 := by
  rcases ancestors_head_id repo new with h | ⟨c0, rest, h, hid⟩
  · rw [h]
    rfl
  · rw [h, List.takeWhile_cons, if_neg (by simp [hid])]
    rfl

/-- Helper: `git_changes` of `src/git.rs` returns the all-zero default on
every input. -/
theorem gitChanges_eq_default (repo : Repo) (old new : CommitC) :
    gitChanges repo old new =
      { commits := 0, files_changed := 0, insertions := 0, deletions := 0 } := by
  unfold gitChanges
  rw [gitChanges_count_eq_zero repo new]
  rfl

/-- C1: the commit count of the Git detector.  The `gix` `git_changes`
(`src/git.rs`) compares each walked commit against `new.id`, so the
ancestry walk of `new` is truncated at its very first element and the
count is zero for *every* repository — in particular at the failing input
`old = aa`, `new = bb` where `bb` is one commit ahead, while the
`graph_ahead_behind`-based count of the `src/main.rs` variant (which the
claim describes) yields 1 there and 0 only when the commits coincide. -/
theorem gitChanges_commits_always_zero :
    (∀ (repo : Repo) (old new : CommitC),
      gitChanges repo old new =
        { commits := 0, files_changed := 0, insertions := 0, deletions := 0 })
    ∧ gitChanges repoPair { id := "aa", parents := [] } { id := "bb", parents := ["aa"] }
        = { commits := 0, files_changed := 0, insertions := 0, deletions := 0 }
    ∧ mainBehind repoPair "aa" "bb" = 1
    ∧ mainBehind repoPair "aa" "aa" = 0 := by
  refine ⟨gitChanges_eq_default, gitChanges_eq_default repoPair _ _, ?_, ?_⟩
  · decide
  · decide

/-- C10: whenever the change computation counts zero commits, the returned
`GitChanges` is the all-zero default — the tree diff is skipped, so a
no-update outcome never carries nonzero diff statistics. -/
theorem gitChanges_zero_commits_all_zero :
    ∀ (repo : Repo) (old new : CommitC),
      (gitChanges repo old new).commits = 0 →
      gitChanges repo old new =
        { commits := 0, files_changed := 0, insertions := 0, deletions := 0 } := by
  intro repo old new h
  by_cases hc :
      ((ancestors repo new).takeWhile (fun commit => commit.id ≠ new.id)).length = 0
  · unfold gitChanges
    rw [if_pos hc]
  · exfalso
    apply hc
    unfold gitChanges at h
    rw [if_neg hc] at h
    exact h

/-- Witness for C10 at a concrete input. -/
theorem gitChanges_zero_commits_all_zero_witness :
    gitChanges repoPairB { id := "cc", parents := [] } { id := "dd", parents := ["cc"] }
      = { commits := 0, files_changed := 0, insertions := 0, deletions := 0 } :=
  gitChanges_zero_commits_all_zero repoPairB _ _ (by decide)

/-! ## The Git detector's early returns (C2, C9) -/

/-- C2, amended: a missing `precise` pin yields the non-error outcome
`None` (whatever the flag and reference), but a pin that does not parse as
a commit id makes `check_update` *fail* with an error when the Git category
is enabled — the `?` on `c.parse::<ObjectId>()` propagates instead of
returning `None`. -/
theorem checkUpdate_precise_behavior :
    ∀ (w : GitWorld) (package : PackageId) (gitRef : GitReference) (git : Bool),
      (package.sourceId.precise = none → checkUpdate w package gitRef git = .ok none) ∧
      (∀ c, package.sourceId.precise = some c → parseObjectId c = none → git = true →
        checkUpdate w package gitRef git = .error .invalidCommitId) := by
  intro w package gitRef git
  constructor
  · intro hp
    unfold checkUpdate
    by_cases hg : git = false
    · rw [if_pos hg]
    · rw [if_neg hg, hp]
  · intro c hp hpo hgit
    subst hgit
    unfold checkUpdate
    rw [if_neg (by simp), hp]
    dsimp only
    rw [hpo]

/-- C2, counterexample to the claim as stated: with the Git category
enabled, a package whose `precise` is present but unparsable makes
`check_update` return an error, not `None`. -/
theorem checkUpdate_unparsable_precise_errors :
    checkUpdate gitWorldA pkgBadPrecise (.Branch "main") true = .error .invalidCommitId
    ∧ pkgBadPrecise.sourceId.precise = some "zzz"
    ∧ parseObjectId "zzz" = none := by
  refine ⟨?_, rfl, by decide⟩
  decide

/-- Witness for the amended C2. -/
theorem checkUpdate_precise_behavior_witness :
    checkUpdate gitWorldA pkgNoPrecise (.Branch "main") true = .ok none :=
  (checkUpdate_precise_behavior gitWorldA pkgNoPrecise (.Branch "main") true).1 rfl

/-- C9, amended: for a `Tag` or `Rev` reference the Git detector returns
`None` — provided the pin is absent, or the pin parses as a commit id and
the repository open/initialisation and remote construction succeed (those
steps run *before* the reference kind is examined and their failures, like
an unparsable pin, surface as errors). -/
theorem checkUpdate_tag_rev_none :
    ∀ (w : GitWorld) (package : PackageId) (gitRef : GitReference) (git : Bool),
      ((∃ t, gitRef = .Tag t) ∨ (∃ r, gitRef = .Rev r)) →
      (package.sourceId.precise = none → checkUpdate w package gitRef git = .ok none) ∧
      (∀ c oid repo, package.sourceId.precise = some c → parseObjectId c = some oid →
        w.openOrInit (repoDirName package.sourceId.canonicalUrl) = .ok repo →
        w.remoteAt repo (serializeUrl package.sourceId.url) = .ok () →
        checkUpdate w package gitRef git = .ok none) := by
  intro w package gitRef git href
  constructor
  · intro hp
    unfold checkUpdate
    by_cases hg : git = false
    · rw [if_pos hg]
    · rw [if_neg hg, hp]
  · intro c oid repo hp hpo hopen hremote
    unfold checkUpdate
    by_cases hg : git = false
    · rw [if_pos hg]
    · rw [if_neg hg, hp]
      dsimp only
      rw [hpo]
      dsimp only
      rw [hopen]
      dsimp only
      rw [hremote]
      rcases href with ⟨t, rfl⟩ | ⟨r, rfl⟩ <;> rfl

/-- C9, counterexample to the claim as stated: a `Tag`-referenced package
with an unparsable pin errors instead of returning `None`, so tags are not
`None` "regardless of the pinned commit". -/
theorem checkUpdate_tag_invalid_precise_errors :
    checkUpdate gitWorldA pkgTagBadPrecise (.Tag "v1") true = .error .invalidCommitId
    ∧ pkgTagBadPrecise.sourceId.kind = .Git (.Tag "v1") := by
  refine ⟨?_, rfl⟩
  decide

/-- Witness for the amended C9, discharging every hypothesis at a concrete
tag-referenced package with a valid pin. -/
theorem checkUpdate_tag_rev_none_witness :
    checkUpdate gitWorldA pkgTagGoodPrecise (.Tag "v1") true = .ok none :=
  (checkUpdate_tag_rev_none gitWorldA pkgTagGoodPrecise (.Tag "v1") true
      (Or.inl ⟨"v1", rfl⟩)).2
    "aaaaaaaaaaaaaaaaaaaaaaaaaaaaaaaaaaaaaaaa"
    (lowerStr "aaaaaaaaaaaaaaaaaaaaaaaaaaaaaaaaaaaaaaaa")
    { commits := [], treeDiff := fun _ _ => [] }
    rfl (by decide) rfl rfl

/-! ## The registry detector (C5) -/

/-- C5, amended: under the stated preconditions the registry detector
returns `None` for a pre-release latest when `allow_prerelease` is off, and
otherwise reports `latest` exactly when `latest > installed` under the
`semver` crate's total order — which refines SemVer precedence by comparing
build metadata as a final tie-break, so the reported version may differ
from the installed one only in build metadata. -/
theorem registryCheckUpdate_characterization :
    ∀ (index : RegistryIndex) (package : PackageId) (pre : Bool)
      (krate : IndexCrate) (latest : Version),
      serializeUrl package.sourceId.url = CRATES_IO_GIT_URL →
      indexLookup index package.name = some krate →
      parseVersion (latestVersionStr krate) = some latest →
      ((latest.pre ≠ [] ∧ pre = false) →
        registryCheckUpdate index package pre = .ok none) ∧
      (¬ (latest.pre ≠ [] ∧ pre = false) →
        (registryCheckUpdate index package pre = .ok (some { version := latest }) ↔
          versionGt latest package.version = true) ∧
        (registryCheckUpdate index package pre = .ok none ↔
          versionGt latest package.version = false)) := by
  intro index package pre krate latest hurl hlook hparse
  unfold registryCheckUpdate
  rw [if_neg (by simp [hurl]), hlook]
  dsimp only
  rw [hparse]
  dsimp only
  constructor
  · intro hcond
    rw [if_pos hcond]
  · intro hcond
    rw [if_neg hcond]
    by_cases hv : versionGt latest package.version = true
    · rw [if_pos hv]
      simp [hv]
    · have hvf : versionGt latest package.version = false := by
        revert hv
        cases versionGt latest package.version <;> simp
      rw [if_neg hv]
      simp [hvf]

/-- C5, counterexample to the claim as stated: the latest `foo` is
`1.2.3+git`, equal to the installed `1.2.3` under SemVer precedence with
build metadata ignored — yet the detector reports it as an update, because
the code's `latest > package.version` uses the crate order that compares
build metadata. -/
theorem registryCheckUpdate_build_metadata_not_ignored :
    registryCheckUpdate idxFoo pkgFoo false
      = .ok (some { version :=
          { major := 1, minor := 2, patch := 3, pre := [], build := ["git"] } })
    ∧ cmpVersionSpecPrecedence
        { major := 1, minor := 2, patch := 3, pre := [], build := ["git"] }
        pkgFoo.version ≠ .gt := by
  constructor
  · decide
  · decide

/-- Witness for the amended C5: `bar` installed at `1.0.0` with upstream
latest `1.1.0` is reported as an update. -/
theorem registryCheckUpdate_characterization_witness :
    registryCheckUpdate idxBar pkgBar false
      = .ok (some { version :=
          { major := 1, minor := 1, patch := 0, pre := [], build := [] } }) :=
  ((registryCheckUpdate_characterization idxBar pkgBar false
        { versions := ["1.1.0"] }
        { major := 1, minor := 1, patch := 0, pre := [], build := [] }
        (by decide) (by decide) (by decide)).2
      (by decide)).1.mpr (by decide)

/-! ## The collector's error propagation (C4) -/

/-- C4, amended: `collect_updates` propagates the first per-package
detector failure as the overall result, aborting the walk — the remaining
packages are not visited and previously gathered results are discarded; a
package whose detection yields no update is simply skipped. -/
theorem collectUpdates_error_propagates :
    (∀ (w : MainWorld) (index : RegistryIndex) (args : SelectArgs)
        (package : PackageId) (info : InstallInfo)
        (rest : List (PackageId × InstallInfo)) (acc : Updates) (e : Err),
      processPackage w index args package = .error e →
      collectUpdates w index args ((package, info) :: rest) acc = .error e)
    ∧ (∀ (w : MainWorld) (index : RegistryIndex) (args : SelectArgs)
        (package : PackageId) (info : InstallInfo)
        (rest : List (PackageId × InstallInfo)) (acc : Updates),
      processPackage w index args package = .ok none →
      collectUpdates w index args ((package, info) :: rest) acc =
        collectUpdates w index args rest acc) := by
  constructor
  · intro w index args package info rest acc e h
    conv_lhs => unfold collectUpdates
    rw [h]
  · intro w index args package info rest acc h
    conv_lhs => unfold collectUpdates
    rw [h]

/-- C4, counterexample to the claim as stated: with `absent` missing from
the index, collecting `[absent, bar]` fails wholesale with
`PackageNotFound` — `bar`'s available update (visible when it is collected
alone) is not produced, so a single detector failure does abort detection
of the remaining packages. -/
theorem collectUpdates_aborts_on_first_failure :
    collectUpdates mainWorldNone idxBar argsNone
        [(pkgMissing, infoDefault), (pkgBar, infoDefault)] {}
      = .error .packageNotFound
    ∧ collectUpdates mainWorldNone idxBar argsNone [(pkgBar, infoDefault)] {}
      = .ok updatesBarOnly := by
  constructor
  · decide
  · decide

/-- Witness for the amended C4. -/
theorem collectUpdates_error_propagates_witness :
    collectUpdates mainWorldNone idxBar argsNone [(pkgMissing, infoDefault)] {}
      = .error .packageNotFound :=
  collectUpdates_error_propagates.1 mainWorldNone idxBar argsNone pkgMissing
    infoDefault [] {} .packageNotFound (by decide)

/-! ## Cache directory names (C6) -/

theorem hexDigitChar_lowerHex : ∀ n, n < 16 → isLowerHexChar (hexDigitChar n) = true := by
  decide

theorem leBytes_lt_256 (h : Nat) : ∀ b ∈ leBytes h, b < 256 := by
  intro b hb
  unfold leBytes at hb
  simp only [List.mem_map, List.mem_range] at hb
  obtain ⟨k, _, rfl⟩ := hb
  exact Nat.mod_lt _ (by omega)

theorem hexPairs_length (l : List Nat) :
    ((l.map fun b => [hexDigitChar (b / 16), hexDigitChar (b % 16)]).flatten).length
      = 2 * l.length := by
  induction l with
  | nil => rfl
  | cons b bs ih =>
    simp only [List.map_cons, List.flatten_cons, List.length_append, List.length_cons,
      List.length_nil, List.length_cons, ih]
    omega

theorem hexPairs_all_lowerHex (l : List Nat) (hl : ∀ b ∈ l, b < 256) :
    ((l.map fun b => [hexDigitChar (b / 16), hexDigitChar (b % 16)]).flatten).all
      isLowerHexChar = true := by
  induction l with
  | nil => rfl
  | cons b bs ih =>
    have hb : b < 256 := hl b (by simp)
    have h1 : isLowerHexChar (hexDigitChar (b / 16)) = true :=
      hexDigitChar_lowerHex _ (Nat.div_lt_of_lt_mul (by omega))
    have h2 : isLowerHexChar (hexDigitChar (b % 16)) = true :=
      hexDigitChar_lowerHex _ (Nat.mod_lt _ (by omega))
    simp only [List.map_cons, List.flatten_cons, List.all_append, List.all_cons,
      List.all_nil, h1, h2, Bool.and_true, Bool.true_and]
    exact ih fun x hx => hl x (by simp [hx])

theorem hexLE64_length (h : Nat) : (hexLE64 h).data.length = 16 := by
  have hd : (hexLE64 h).data =
      ((leBytes h).map fun b => [hexDigitChar (b / 16), hexDigitChar (b % 16)]).flatten :=
    rfl
  rw [hd, hexPairs_length]
  unfold leBytes
  simp

theorem hexLE64_lowerHex (h : Nat) : (hexLE64 h).data.all isLowerHexChar = true := by
  have hd : (hexLE64 h).data =
      ((leBytes h).map fun b => [hexDigitChar (b / 16), hexDigitChar (b % 16)]).flatten :=
    rfl
  rw [hd]
  exact hexPairs_all_lowerHex _ (leBytes_lt_256 h)

/-- C6, counterexample to the claim as stated: the canonical URL
`https://example.com/a/` (reached from `https://example.com/a//`) has last
*non-empty* segment `a`, but its last segment is empty, so the source names
the directory `_empty-...` where the spec's rule names it `a-...`. -/
theorem repoDirName_ne_cacheDirNameSpec :
    canonicalize urlDoubleSlash = .ok cuTrailing.inner
    ∧ repoDirName cuTrailing ≠ cacheDirNameSpec cuTrailing
    ∧ strStartsWith (repoDirName cuTrailing) "_empty-" = true
    ∧ strStartsWith (cacheDirNameSpec cuTrailing) "a-" = true := by
  refine ⟨rfl, by decide, by decide, by decide⟩

/-- C6, amended: the cache directory name is `"{ident}-{hash}"` where
`ident` is the canonical URL's *last* path segment with `_empty`
substituted when there are no segments or the last one is empty, and
`hash` is the 16 lower-case hexadecimal digits of the little-endian bytes
of the 64-bit SipHash-2-4 of the `CanonicalUrl` value — i.e. of its
serialization's UTF-8 bytes followed by the `0xff` terminator byte that
Rust's `str` hashing appends.  Being a function of the canonical URL, the
name is identical for identical canonical URLs. -/
theorem repoDirName_format :
    ∀ cu : CanonicalUrl,
      repoDirName cu =
        (let ident := ((urlPathSegments cu.inner).bind List.getLast?).getD ""
         if ident = "" then "_empty" else ident) ++ "-"
          ++ hexLE64 (sipHash24 (strBytes (serializeUrl cu.inner) ++ [0xff]))
      ∧ (hexLE64 (hashCanonicalUrl cu)).data.length = 16
      ∧ (hexLE64 (hashCanonicalUrl cu)).data.all isLowerHexChar = true := by
  intro cu
  exact ⟨rfl, hexLE64_length _, hexLE64_lowerHex _⟩

/-! ## Identifier parsing (C8) -/

theorem splitOnceChar_none_iff (c : Char) (l : List Char) :
    splitOnceChar c l = none ↔ c ∉ l := by
  induction l with
  | nil => simp [splitOnceChar]
  | cons x xs ih =>
    unfold splitOnceChar
    by_cases hx : x = c
    · subst hx
      simp
    · rw [if_neg hx]
      cases h : splitOnceChar c xs with
      | none =>
        simp only [List.mem_cons]
        have hcx : c ∉ xs := ih.mp h
        constructor
        · intro _ hor
          rcases hor with h1 | h2
          · exact hx h1.symm
          · exact hcx h2
        · intro _
          trivial
      | some p =>
        obtain ⟨a, b⟩ := p
        simp only [List.mem_cons]
        constructor
        · intro hco
          exact absurd hco (by simp)
        · intro hnm
          exfalso
          apply hnm
          right
          by_contra hnx
          rw [ih.mpr hnx] at h
          cases h

theorem splitOnceChar_some (c : Char) :
    ∀ (l a b : List Char), splitOnceChar c l = some (a, b) → l = a ++ c :: b ∧ c ∉ a := by
  intro l
  induction l with
  | nil =>
    intro a b h
    cases h
  | cons x xs ih =>
    intro a b h
    unfold splitOnceChar at h
    by_cases hx : x = c
    · rw [if_pos hx] at h
      injection h with h
      cases h
      subst hx
      exact ⟨rfl, by simp⟩
    · rw [if_neg hx] at h
      cases hs : splitOnceChar c xs with
      | none =>
        rw [hs] at h
        cases h
      | some p =>
        rw [hs] at h
        dsimp only at h
        injection h with h
        have h1 : x :: p.1 = a := congrArg Prod.fst h
        have h2 : p.2 = b := congrArg Prod.snd h
        obtain ⟨hxs, hna⟩ := ih p.1 p.2 hs
        constructor
        · rw [← h1, ← h2, hxs]
          rfl
        · rw [← h1]
          simp only [List.mem_cons]
          intro hor
          rcases hor with hc1 | hc2
          · exact hx hc1.symm
          · exact hna hc2

theorem splitOnceChar_append (c : Char) (a b : List Char) (ha : c ∉ a) :
    splitOnceChar c (a ++ c :: b) = some (a, b) := by
  induction a with
  | nil => simp [splitOnceChar]
  | cons x xs ih =>
    have hx : ¬ x = c := fun h => ha (by simp [h])
    have hxs : c ∉ xs := fun h => ha (by simp [h])
    rw [List.cons_append]
    unfold splitOnceChar
    rw [if_neg hx, ih hxs]

theorem map_ne_malformed {α β : Type} (x : Except Err α) (f : α → β)
    (hx : x ≠ .error .malformedIdentifier) : x.map f ≠ .error .malformedIdentifier := by
  cases x with
  | error e => simpa [Except.map] using hx
  | ok v => simp [Except.map]

theorem canonicalize_ne_malformed (u : Url) :
    canonicalize u ≠ .error .malformedIdentifier := by
  unfold canonicalize
  split <;> simp

theorem sourceIdNew_ne_malformed (k : SourceKind) (u : Url) (n : Option String) :
    SourceId.new k u n ≠ .error .malformedIdentifier := by
  unfold SourceId.new CanonicalUrl.new
  exact map_ne_malformed _ _ (map_ne_malformed _ _ (canonicalize_ne_malformed u))

/-- `SourceId::from_url` never raises the malformed-identifier class: its
failures are unsupported-source, invalid-URL, unsupported-kind or
unsupported-URL-shape errors. -/
theorem sourceIdFromUrl_ne_malformed (s : String) :
    sourceIdFromUrl s ≠ .error .malformedIdentifier := by
  unfold sourceIdFromUrl
  cases hsp : splitOnce s '+' with
  | none => simp
  | some p =>
    obtain ⟨kind, url⟩ := p
    dsimp only
    by_cases h1 : kind = "git"
    · rw [if_pos h1]
      cases hp : parseUrl url with
      | none => simp
      | some u =>
        exact map_ne_malformed _ _ (sourceIdNew_ne_malformed _ _ _)
    · rw [if_neg h1]
      by_cases h2 : kind = "registry"
      · rw [if_pos h2]
        cases hp : parseUrl url with
        | none => simp
        | some u =>
          exact map_ne_malformed _ _ (sourceIdNew_ne_malformed _ _ _)
      · rw [if_neg h2]
        by_cases h3 : kind = "sparse"
        · rw [if_pos h3]
          cases hp : parseUrl s with
          | none => simp
          | some u =>
            exact map_ne_malformed _ _ (sourceIdNew_ne_malformed _ _ _)
        · rw [if_neg h3]
          by_cases h4 : kind = "path"
          · rw [if_pos h4]
            cases hp : parseUrl url with
            | none => simp
            | some u =>
              exact sourceIdNew_ne_malformed _ _ _
          · rw [if_neg h4]
            simp

/-- C8, amended: parsing a textual package identifier fails with the
malformed-identifier class *exactly* when fewer than three space-delimited
components exist, when the version segment — after trimming surrounding
whitespace, as the code does — is not valid SemVer, or when the source
segment lacks its `(`/`)` delimiters; and for every well-formed input
`name version (source)` (name and version free of spaces, the source
segment arbitrary) the split happens on the first two spaces only and the
name and parsed version are recovered exactly, the remainder going through
`SourceId::from_url`. -/
theorem parsePackageId_characterization :
    (∀ s : String,
      (parsePackageId s = .error .malformedIdentifier ↔
        s.data.count ' ' < 2 ∨
        ∃ n v u, s.data = n ++ ' ' :: (v ++ ' ' :: u) ∧ ' ' ∉ n ∧ ' ' ∉ v ∧
          (parseVersion (strTrim ⟨v⟩) = none ∨ stripParens ⟨u⟩ = none)))
    ∧ (∀ (name verStr src : String) (v : Version),
        ' ' ∉ name.data → ' ' ∉ verStr.data → strTrim verStr = verStr →
        parseVersion verStr = some v →
        parsePackageId (name ++ " " ++ verStr ++ " (" ++ src ++ ")") =
          (sourceIdFromUrl src).map fun sid =>
            { name := name, version := v, sourceId := sid }) := by
  constructor
  · intro s
    unfold parsePackageId splitOnce
    cases h1 : splitOnceChar ' ' s.data with
    | none =>
      have hnm : ' ' ∉ s.data := (splitOnceChar_none_iff _ _).mp h1
      have hcnt : s.data.count ' ' = 0 := List.count_eq_zero.mpr hnm
      constructor
      · intro _
        exact Or.inl (by omega)
      · intro _
        rfl
    | some p =>
      obtain ⟨a, r⟩ := p
      obtain ⟨hs, hna⟩ := splitOnceChar_some ' ' s.data a r h1
      dsimp only
      cases h2 : splitOnceChar ' ' r with
      | none =>
        have hnr : ' ' ∉ r := (splitOnceChar_none_iff _ _).mp h2
        have hcnt : s.data.count ' ' = 1 := by
          rw [hs]
          simp [List.count_append, List.count_eq_zero.mpr hna,
            List.count_eq_zero.mpr hnr]
        constructor
        · intro _
          exact Or.inl (by omega)
        · intro _
          rfl
      | some q =>
        obtain ⟨v2, u2⟩ := q
        obtain ⟨hr, hnv⟩ := splitOnceChar_some ' ' r v2 u2 h2
        dsimp only
        cases h3 : parseVersion (strTrim ⟨v2⟩) with
        | none =>
          constructor
          · intro _
            refine Or.inr ⟨a, v2, u2, ?_, hna, hnv, Or.inl h3⟩
            rw [hs, hr]
          · intro _
            rfl
        | some ver =>
          dsimp only
          cases h4 : stripParens ⟨u2⟩ with
          | none =>
            constructor
            · intro _
              refine Or.inr ⟨a, v2, u2, ?_, hna, hnv, Or.inr h4⟩
              rw [hs, hr]
            · intro _
              rfl
          | some inner =>
            dsimp only
            refine iff_of_false
              (map_ne_malformed _ _ (sourceIdFromUrl_ne_malformed inner)) ?_
            intro hR
            rcases hR with hcnt | ⟨n2, v3, u3, hdec, hn2, hv3, hbad⟩
            · rw [hs, hr] at hcnt
              simp [List.count_append] at hcnt
              omega
            · have h1a : splitOnceChar ' ' s.data = some (n2, v3 ++ ' ' :: u3) := by
                rw [hdec]
                exact splitOnceChar_append ' ' n2 (v3 ++ ' ' :: u3) hn2
              rw [h1] at h1a
              injection h1a with h1a
              have hfst : a = n2 := congrArg Prod.fst h1a
              have hsnd : r = v3 ++ ' ' :: u3 := congrArg Prod.snd h1a
              have h2a : splitOnceChar ' ' r = some (v3, u3) := by
                rw [hsnd]
                exact splitOnceChar_append ' ' v3 u3 hv3
              rw [h2] at h2a
              injection h2a with h2a
              have hveq : v2 = v3 := congrArg Prod.fst h2a
              have hueq : u2 = u3 := congrArg Prod.snd h2a
              rcases hbad with hb1 | hb2
              · rw [← hveq, h3] at hb1
                cases hb1
              · rw [← hueq, h4] at hb2
                cases hb2
  · intro name verStr src v hn hv htrim hparse
    have hdata : (name ++ " " ++ verStr ++ " (" ++ src ++ ")").data
        = name.data ++ ' ' :: (verStr.data ++ ' ' :: ('(' :: (src.data ++ [')']))) := by
      simp only [String.data_append, List.append_assoc]
      rfl
    have hsp : stripParens ⟨'(' :: (src.data ++ [')'])⟩ = some src := by
      unfold stripParens
      dsimp only
      rw [if_pos rfl, List.getLast?_concat]
      dsimp only
      rw [if_pos rfl, List.dropLast_concat]
    unfold parsePackageId splitOnce
    rw [hdata, splitOnceChar_append ' ' name.data _ hn]
    dsimp only
    rw [splitOnceChar_append ' ' verStr.data _ hv]
    dsimp only
    have hev : (⟨verStr.data⟩ : String) = verStr := rfl
    rw [hev, htrim, hparse]
    dsimp only
    rw [hsp]

/-- C8, counterexample to the claim as stated: `identTab`'s version segment
is `"\t1.0.0"`, which is not valid SemVer — yet parsing succeeds, because
the code trims the segment before parsing it.  So "fails exactly when the
version segment is not valid SemVer" does not hold of the untrimmed
segment. -/
theorem parsePackageId_trimmed_version_segment :
    (parsePackageId identTab).isOk = true
    ∧ splitOnce identTab ' '
        = some ("a", "\t1.0.0 (registry+https://example.com/index)")
    ∧ splitOnce "\t1.0.0 (registry+https://example.com/index)" ' '
        = some ("\t1.0.0", "(registry+https://example.com/index)")
    ∧ parseVersion "\t1.0.0" = none := by
  refine ⟨by decide, by decide, by decide, by decide⟩

/-- Witness for the amended C8 on a concrete well-formed identifier. -/
theorem parsePackageId_characterization_witness :
    parsePackageId "rg 1.2.3 (path+file:///tmp/x)"
      = (sourceIdFromUrl "path+file:///tmp/x").map fun sid =>
          { name := "rg",
            version := { major := 1, minor := 2, patch := 3, pre := [], build := [] },
            sourceId := sid } :=
  parsePackageId_characterization.2 "rg" "1.2.3" "path+file:///tmp/x"
    { major := 1, minor := 2, patch := 3, pre := [], build := [] }
    (by decide) (by decide) (by decide) (by decide)
